import Mathlib

/-!
Verification of the jira-filters repository (batch script `jira_view_filter.py`
and Home Assistant custom component `custom_components/jira_filters/sensor.py`).

The source is shallowly embedded: JSON payloads become an inductive `Json` tree,
Python `dict.get` / truthiness / `or` become explicit functions, fallible code
runs in `Except String` (a `.error` models a raised Python exception), and HTTP
calls are abstracted as environment functions supplied to the embedded engine.
-/

namespace JiraSpec

/-- A JSON value, modelling the loosely typed payloads the engine manipulates.
Numbers are modelled as integers (no claim depends on fractional values). -/
inductive Json where
  | null : Json
  | bool (b : Bool) : Json
  | num (n : Int) : Json
  | str (s : String) : Json
  | arr (xs : List Json) : Json
  | obj (kvs : List (String × Json)) : Json

/-- Python truthiness: `None`, `False`, `0`, `""`, `[]`, `{}` are falsy. -/
def pyTruthy : Json → Bool
  | .null => false
  | .bool b => b
  | .num n => n != 0
  | .str s => s ≠ ""
  | .arr xs => !xs.isEmpty
  | .obj kvs => !kvs.isEmpty

/-- Python `a or b`. -/
def pyOr (a b : Json) : Json := if pyTruthy a then a else b

/-- Whether a value is a dict (`isinstance(x, dict)` in the source). -/
def Json.isObj : Json → Bool
  | .obj _ => true
  | _ => false

/-- Python `d.get(key, default)`; raises `AttributeError` when `d` is not a
dict, exactly as `None.get(...)` or `"x".get(...)` would in the source. -/
def dictGet (d : Json) (k : String) (dflt : Json) : Except String Json :=
  match d with
  | .obj kvs => .ok ((kvs.lookup k).getD dflt)
  | _ => .error "AttributeError"

/-- Projection `priority.get('name') if priority else None`, used verbatim for
`priority` and `issuetype` in `_simplify_issue`. -/
def projName (p : Json) : Except String Json :=
  if pyTruthy p then dictGet p "name" .null else pure .null

/-- The `'status'` sub-dict built by `_simplify_issue`:
`{'name': status.get('name'), 'category': (status.get('statusCategory') or
\x7b\x7d).get('name') if isinstance(status.get('statusCategory'), dict) else None}`. -/
def projStatus (status : Json) : Except String Json := do
  let n ← dictGet status "name" .null
  let sc ← dictGet status "statusCategory" .null
  let c ← if sc.isObj then dictGet (pyOr sc (.obj [])) "name" .null else pure Json.null
  pure (Json.obj [("name", n), ("category", c)])

/-- The `'assignee'` value built by `_simplify_issue` (dict of three fields if
`assignee` is truthy, else `None`). -/
def projAssignee (assignee : Json) : Except String Json :=
  if pyTruthy assignee then do
    let a1 ← dictGet assignee "accountId" .null
    let a2 ← dictGet assignee "displayName" .null
    let a3 ← dictGet assignee "emailAddress" .null
    pure (Json.obj [("accountId", a1), ("displayName", a2), ("emailAddress", a3)])
  else pure Json.null

/-- The `'parent'` value built by `_simplify_issue`. -/
def projParent (parent : Json) : Except String Json :=
  if pyTruthy parent then do
    let p1 ← dictGet parent "key" .null
    let p2 ← dictGet parent "id" .null
    let pf ← dictGet parent "fields" .null
    let p3 ← if pf.isObj then dictGet (pyOr pf (.obj [])) "summary" .null else pure Json.null
    pure (Json.obj [("key", p1), ("id", p2), ("summary", p3)])
  else pure Json.null

/-- Embeds `JiraClient._simplify_issue` (jira_view_filter.py, lines 223-254); the
identical method `JiraFiltersCoordinator._simplify_issue` (sensor.py, lines
257-289) is the same function. An `.error` models a raised exception. -/
def simplifyIssue (issue : Json) : Except String Json := do
  let fields ← dictGet issue "fields" (.obj [])
  let status := pyOr (← dictGet fields "status" .null) (.obj [])
  let assignee := pyOr (← dictGet fields "assignee" .null) (.obj [])
  let priority := pyOr (← dictGet fields "priority" .null) (.obj [])
  let issueType := pyOr (← dictGet fields "issuetype" .null) (.obj [])
  let parent := pyOr (← dictGet fields "parent" .null) (.obj [])
  let idv ← dictGet issue "id" .null
  let keyv ← dictGet issue "key" .null
  let summaryv ← dictGet fields "summary" .null
  let statusObj ← projStatus status
  let assigneeVal ← projAssignee assignee
  let priorityVal ← projName priority
  let issueTypeVal ← projName issueType
  let parentVal ← projParent parent
  let labels ← dictGet fields "labels" (.arr [])
  let created ← dictGet fields "created" .null
  let updated ← dictGet fields "updated" .null
  pure (Json.obj [("id", idv), ("key", keyv), ("summary", summaryv),
    ("status", statusObj), ("assignee", assigneeVal), ("priority", priorityVal),
    ("issueType", issueTypeVal), ("parent", parentVal), ("labels", labels),
    ("created", created), ("updated", updated)])

/-- Resolved nested value: `x or \x7b\x7d` is a dict whenever `x` is falsy or itself a dict. -/
def safeNestedVal : Option Json → Bool
  | none => true
  | some v => !pyTruthy v || v.isObj

/-- The `'category'` value computed by `projStatus` once `status` is a dict. -/
def catOf : Json → Json
  | .obj sckvs => (sckvs.lookup "name").getD .null
  | _ => .null

/-- Closed form of the `'name'` projection once the value is a dict. -/
def nameValOf (pkvs : List (String × Json)) : Json :=
  if pkvs.isEmpty then .null else (pkvs.lookup "name").getD .null

/-- Closed form of the `'status'` sub-dict once `status` is a dict. -/
def statusValOf (skvs : List (String × Json)) : Json :=
  .obj [("name", (skvs.lookup "name").getD .null),
        ("category", catOf ((skvs.lookup "statusCategory").getD .null))]

/-- Closed form of the `'assignee'` value once `assignee` is a dict. -/
def assigneeValOf (akvs : List (String × Json)) : Json :=
  if akvs.isEmpty then .null
  else .obj [("accountId", (akvs.lookup "accountId").getD .null),
             ("displayName", (akvs.lookup "displayName").getD .null),
             ("emailAddress", (akvs.lookup "emailAddress").getD .null)]

/-- The parent summary: `(parent.get('fields') or \x7b\x7d).get('summary')` guarded
by `isinstance(..., dict)`. -/
def parentSummaryOf : Json → Json
  | .obj fkvs => if fkvs.isEmpty then .null else (fkvs.lookup "summary").getD .null
  | _ => .null

/-- Closed form of the `'parent'` value once `parent` is a dict. -/
def parentValOf (pkvs : List (String × Json)) : Json :=
  if pkvs.isEmpty then .null
  else .obj [("key", (pkvs.lookup "key").getD .null),
             ("id", (pkvs.lookup "id").getD .null),
             ("summary", parentSummaryOf ((pkvs.lookup "fields").getD .null))]

/-! ### Well-formedness of raw issues (hypotheses for the normalizer) -/
/-- The value of nested member `k` of the raw issue's `fields` dict, when the
issue and its `fields` are dicts. -/
def fieldVal (issue : Json) (k : String) : Option Json :=
  match issue with
  | .obj kvs =>
    match kvs.lookup "fields" with
    | some (.obj fkvs) => fkvs.lookup k
    | _ => none
  | _ => none

/-- Nested member `k` of `fields` is missing or JSON `null`. -/
def missingOrNull (issue : Json) (k : String) : Bool :=
  match fieldVal issue k with
  | none => true
  | some .null => true
  | some _ => false

/-- A raw issue on which the Python normalizer cannot hit an attribute error:
a dict whose `fields` member (when present) is a dict, and whose five optional
nested members are each missing, falsy, or themselves dicts. -/
def wellFormedIssue (issue : Json) : Bool :=
  match issue with
  | .obj kvs =>
    match kvs.lookup "fields" with
    | none => true
    | some (.obj fkvs) =>
        safeNestedVal (fkvs.lookup "status") && safeNestedVal (fkvs.lookup "assignee") &&
        safeNestedVal (fkvs.lookup "priority") && safeNestedVal (fkvs.lookup "issuetype") &&
        safeNestedVal (fkvs.lookup "parent")
    | some _ => false
  | _ => false

/-- Key lookup in a produced (dict-shaped) record. -/
def outLookup (out : Json) (k : String) : Option Json :=
  match out with
  | .obj kvs => kvs.lookup k
  | _ => none

/-! ### Claim C6 -/
/-- A concrete well-formed issue with a null assignee, null-less priority and a
status without statusCategory, used to witness C6. -/
def c6Issue : Json :=
  .obj [("id", .str "10"), ("key", .str "PROJ-1"),
        ("fields", .obj [("assignee", .null), ("priority", .null),
                         ("status", .obj [("name", .str "Done")]),
                         ("summary", .str "hello")])]

/-! ### Relative-time formatting (`format_human_time`, jira_view_filter.py
lines 35-63; the identical `_format_human_time` in sensor.py lines 291-318) -/
/-- Python `f"\x7bn\x7d unit\x7b's' if n != 1 else ''\x7d ago"`. -/
def agoStr (n : Nat) (unit : String) : String :=
  let suf := if n = 1 then "" else "s"
  s!"{n} {unit}{suf} ago"

/-- The bucketing logic of `format_human_time`, applied to an already-computed
nonnegative `timedelta` given by `days` and the normalized remainder `seconds`
(Python guarantees `0 <= seconds < 86400`). Timestamp parsing is abstracted:
the claims concern a parseable timestamp not after the clock read. -/
def formatHumanTime (days seconds : Nat) : String :=
  if days > 0 then
    if days = 1 then "1 day ago"
    else if days < 7 then s!"{days} days ago"
    else if days < 30 then agoStr (days / 7) "week"
    else agoStr (days / 30) "month"
  else if seconds > 3600 then agoStr (seconds / 3600) "hour"
  else if seconds > 60 then agoStr (seconds / 60) "minute"
  else "just now"

/-- Application of `format_human_time` to a total age of `d` seconds (`now - t`), normalized
the way Python `timedelta` normalizes a nonnegative difference. -/
def humanTimeOfDiff (d : Nat) : String :=
  formatHumanTime (d / 86400) (d % 86400)

/-! ### Recency selection (`sorted(issues, key=lambda x: x.get('updated', ''),
reverse=True)[0]`, jira_view_filter.py lines 272-279 and sensor.py 220-230) -/
/-- Python `<` restricted to the value shapes a sort key can take here:
strings compare lexicographically, numbers (and bools, which are ints in
Python) numerically; any other pair raises a TypeError, as Python does for
`None < str` etc. (element-wise list comparison is not modelled: no sort key
in this engine is a list). -/
def pyLt (a b : Json) : Except String Bool :=
  match a, b with
  | .str x, .str y => .ok (decide (x.data < y.data))
  | .num x, .num y => .ok (decide (x < y))
  | .num x, .bool y => .ok (decide (x < (if y then 1 else 0)))
  | .bool x, .num y => .ok (decide ((if x then 1 else 0 : Int) < y))
  | .bool x, .bool y => .ok (decide ((if x then 1 else 0 : Int) < (if y then 1 else 0)))
  | _, _ => .error "TypeError"

/-- The sort key `x.get('updated', '')`. -/
def updatedKeyE (x : Json) : Except String Json := dictGet x "updated" (.str "")

/-- Key extraction for every element, in order, before sorting (Python's
`sorted` calls `key` once per element up front). -/
def decorate (l : List Json) : Except String (List (Json × Json)) :=
  l.mapM (fun x => (updatedKeyE x).map (fun k => (x, k)))

/-- Stable descending insertion: the new element is placed before the first
existing element whose key is strictly smaller, hence after all equal keys —
the stability/`reverse=True` contract of Python `sorted`. -/
def insertDescM (x : Json × Json) : List (Json × Json) → Except String (List (Json × Json))
  | [] => .ok [x]
  | y :: ys => do
    let b ← pyLt y.2 x.2
    if b then pure (x :: y :: ys)
    else do
      let r ← insertDescM x ys
      pure (y :: r)

/-- Stable descending sort of decorated pairs (model of Python `sorted` with
`reverse=True`, which is stable). -/
def sortPairsM (l : List (Json × Json)) : Except String (List (Json × Json)) :=
  l.foldlM (fun acc x => insertDescM x acc) []

def sortByUpdatedDescM (l : List Json) : Except String (List Json) := do
  let d ← decorate l
  let s ← sortPairsM d
  pure (s.map Prod.fst)

/-- Selection of `most_recent_issue`: `None` for an empty list, else the head of the
descending stable sort by `updated`. -/
def mostRecentIssue (l : List Json) : Except String (Option Json) :=
  if l.isEmpty then pure none
  else do
    let s ← sortByUpdatedDescM l
    pure s.head?

/-- The string content of a string-valued sort key. -/
def jstr : Json → String
  | .str s => s
  | _ => ""

/-- The `updated` string of an issue whose `updated` member is a string. -/
def updStr (x : Json) : String :=
  match updatedKeyE x with
  | .ok k => jstr k
  | .error _ => ""

/-! ### Pure counterpart of the descending stable sort, for string-keyed lists -/
def insertDescS (x : Json × Json) : List (Json × Json) → List (Json × Json)
  | [] => [x]
  | y :: ys => if jstr y.2 < jstr x.2 then x :: y :: ys else y :: insertDescS x ys

def sortPairsS (l : List (Json × Json)) : List (Json × Json) :=
  l.foldl (fun acc x => insertDescS x acc) []

/-- All sort keys are strings (the shape the claims constrain `updated` to). -/
def StrKeyed (l : List (Json × Json)) : Prop := ∀ p ∈ l, ∃ s, p.2 = Json.str s

/-- The running "current best" of Python's max-by-key scan: replaced only by a
strictly greater key, hence the first maximal element wins. -/
def scanDesc (b : Json × Json) (l : List (Json × Json)) : Json × Json :=
  l.foldl (fun b y => if jstr b.2 < jstr y.2 then y else b) b

/-- The three normalized issues of the claim's example. -/
def c7Jan : Json := .obj [("key", .str "K-1"), ("updated", .str "2024-01-01T00:00:00Z")]

def c7Mar : Json := .obj [("key", .str "K-2"), ("updated", .str "2024-03-01T00:00:00Z")]

def c7Feb : Json := .obj [("key", .str "K-3"), ("updated", .str "2024-02-01T00:00:00Z")]

/-! ### Paginated search (`JiraClient.search_issues`, jira_view_filter.py
lines 165-221) -/
/-- A parsed search response page: `data.get('issues', [])`,
`data.get('isLast', True)` and `data.get('nextPageToken')`. -/
structure SearchPage where
  issues : List Json
  isLast : Bool
  nextPageToken : Option Nat

/-- The search endpoint as seen by the batch executor: one request per page,
carrying the continuation token and the requested page size; `.error ()` is a
failed request (a `RequestException`). The JQL string and field list are fixed
for one search and folded into the server value. Tokens are opaque; they are
modelled as naturals. -/
abbrev Server : Type := Option Nat → Nat → Except Unit SearchPage

/-- The pagination loop of `search_issues`: `while total_fetched < max_results`
request a page of size `min(1000, max_results - total_fetched)`; on a failed
request `break` (keeping what was collected so far, no error); simplify and
append at most `max_results - total_fetched` of the returned issues (an
exception from `_simplify_issue` propagates); stop after the page on
`isLast`, an empty page, or a missing continuation token. `fuel` only phrases
the `while` loop structurally: every continuing iteration strictly increases
`total_fetched`, so `maxResults + 1` iterations are never exhausted. Returns
the collected simplified issues and the trace of page requests as pairs
`(total_fetched at request time, requested page size)`. -/
def searchLoopF (server : Server) (maxResults : Nat) :
    Nat → Nat → Option Nat → Except String (List Json) × List (Nat × Nat)
  | 0, _, _ => (.ok [], [])
  | fuel + 1, fetched, token =>
    if fetched < maxResults then
      match server token (min 1000 (maxResults - fetched)) with
      | .error _ => (.ok [], [(fetched, min 1000 (maxResults - fetched))])
      | .ok page =>
        match (page.issues.take (maxResults - fetched)).mapM simplifyIssue with
        | .error e => (.error e, [(fetched, min 1000 (maxResults - fetched))])
        | .ok simplified =>
          if page.isLast || page.issues.isEmpty then
            (.ok simplified, [(fetched, min 1000 (maxResults - fetched))])
          else
            match page.nextPageToken with
            | none => (.ok simplified, [(fetched, min 1000 (maxResults - fetched))])
            | some t =>
              ((searchLoopF server maxResults fuel
                  (fetched + min (maxResults - fetched) page.issues.length)
                  (some t)).1.map (fun r => simplified ++ r),
               (fetched, min 1000 (maxResults - fetched)) ::
                 (searchLoopF server maxResults fuel
                   (fetched + min (maxResults - fetched) page.issues.length) (some t)).2)
    else (.ok [], [])

/-- Embeds `JiraClient.search_issues(jql, max_results)`: the collected (simplified)
issues. -/
def searchIssues (server : Server) (maxResults : Nat) : Except String (List Json) :=
  (searchLoopF server maxResults (maxResults + 1) 0 none).1

/-- The page requests issued by one `search_issues` call. -/
def searchTrace (server : Server) (maxResults : Nat) : List (Nat × Nat) :=
  (searchLoopF server maxResults (maxResults + 1) 0 none).2

/-- A well-behaved paging server holding the list `all` of matching issues:
serves `all[offset : offset + pageSize]`, reports `isLast` exactly when the
slice reaches the end, and hands out the next offset as continuation token. -/
def listServer (all : List Json) : Server := fun token pageSize =>
  let offset := token.getD 0
  .ok ⟨(all.drop offset).take pageSize,
       decide (all.length ≤ offset + pageSize),
       some (offset + pageSize)⟩

/-- A minimal raw issue used in concrete scenarios. -/
def mkIssue (k u : String) : Json :=
  .obj [("key", .str k), ("fields", .obj [("summary", .str "s"), ("updated", .str u)])]

/-- A server whose first page succeeds with two issues and a continuation, and
whose second page request fails. -/
def c4Server : Server := fun token _ =>
  match token with
  | none => .ok ⟨[mkIssue "A-1" "2024-01-01T00:00:00Z",
                  mkIssue "A-2" "2024-01-02T00:00:00Z"], false, some 1⟩
  | some _ => .error ()

/-! ### Batch pipeline (`run_filters`, jira_view_filter.py lines 257-301) -/
/-- The `most_recent_ticket` dict built from the selected issue (batch lines
290-296 and sensor.py lines 225-230 build the identical dict): key, summary,
updated, and `updated_human` computed only when `updated` is truthy. The
clock-dependent `format_human_time` application is abstracted as `humanTime`. -/
def mkMostRecent (humanTime : Json → String) (mr : Json) : Except String Json := do
  let k ← dictGet mr "key" .null
  let su ← dictGet mr "summary" .null
  let up ← dictGet mr "updated" .null
  pure (Json.obj [("key", k), ("summary", su), ("updated", up),
    ("updated_human", if pyTruthy up then Json.str (humanTime up) else Json.null)])

/-- The environment of one batch run: `get_filter` (which returns `None` on any
resolution failure — it catches its own exceptions) and the search endpoint
behavior for a given JQL value. -/
structure BatchEnv where
  getFilter : String → Option Json
  search : Json → Server

/-- One batch FilterResult (note: it has no error field at all). -/
structure BatchResult where
  filter_id : String
  filter_name : Json
  jql : Json
  total_returned : Nat
  issues : List Json
  most_recent_ticket : Option Json

/-- The body of `run_filters`' per-filter loop iteration: `None` models the two
`continue` paths (unresolvable filter, missing/empty JQL). -/
def runFilterOne (env : BatchEnv) (humanTime : Json → String) (fid : String)
    (maxR : Nat) : Except String (Option BatchResult) :=
  match env.getFilter fid with
  | none => .ok none
  | some fobj =>
    if pyTruthy fobj then do
      let name ← dictGet fobj "name" .null
      let jql ← dictGet fobj "jql" .null
      if pyTruthy jql then do
        let issues ← searchIssues (env.search jql) maxR
        let mro ← mostRecentIssue issues
        let mrt ← match mro with
          | some mr => do
            let m ← mkMostRecent humanTime mr
            pure (some m)
          | none => pure (none : Option Json)
        pure (some { filter_id := fid,
                     filter_name := pyOr name (.str ("filter_" ++ fid)),
                     jql := jql,
                     total_returned := issues.length,
                     issues := issues,
                     most_recent_ticket := mrt })
      else pure none
    else pure none

/-- Embeds `run_filters(client, filter_ids, max_results)`. -/
def runFilters (env : BatchEnv) (humanTime : Json → String) :
    List String → Nat → Except String (List BatchResult)
  | [], _ => .ok []
  | fid :: rest, maxR => do
    let r1 ← runFilterOne env humanTime fid maxR
    let tail ← runFilters env humanTime rest maxR
    pure (match r1 with
          | some r => r :: tail
          | none => tail)

/-- A single-page server: returns the given issues with `isLast = true`. -/
def oneShotServer (issues : List Json) : Server := fun _ _ => .ok ⟨issues, true, none⟩

/-! ### Host-integration pipeline (`JiraFiltersCoordinator._fetch_jira_data`,
sensor.py lines 102-255) -/
/-- A failed HTTP request: an HTTP error status (from `raise_for_status`) or
any other `RequestException` (timeout, connection error). Only the former
triggers the endpoint fallback; both are caught by the per-filter handler. -/
inductive Fail where
  | httpError : Fail
  | reqError : Fail
deriving DecidableEq

/-- The three search endpoint variants tried in order. -/
inductive Endpoint where
  | getSearch : Endpoint
  | postSearch : Endpoint
  | postSearchJql : Endpoint
deriving DecidableEq

/-- A raised Python exception inside the per-filter body: `RequestException`s
(`.req`) are caught by the per-filter handler; anything else (`.other`)
propagates out of `_fetch_jira_data` and fails the whole cycle. -/
inductive PyErr where
  | req : Fail → PyErr
  | other : String → PyErr

/-- The cycle's environment: per-filter resolution response and per-filter,
per-endpoint search response (the JQL and payload are folded in; `maxResults`
is forwarded as sent in the request). -/
structure HAEnv where
  resolve : String → Except Fail Json
  search : String → Nat → Endpoint → Except Fail Json

def liftStr {α : Type} : Except String α → Except PyErr α
  | .ok a => .ok a
  | .error e => .error (.other e)

def liftReq {α : Type} : Except Fail α → Except PyErr α
  | .ok a => .ok a
  | .error f => .error (.req f)

/-- The GET → POST → POST-jql endpoint fallback (sensor.py lines 153-215): an
`HTTPError` triggers the next variant, any other `RequestException`
propagates immediately; the successful response is returned together with the
trace of attempted endpoints. -/
def haSearch (s : Endpoint → Except Fail Json) : Except Fail (Json × List Endpoint) :=
  match s .getSearch with
  | .ok d => .ok (d, [.getSearch])
  | .error .httpError =>
    match s .postSearch with
    | .ok d => .ok (d, [.getSearch, .postSearch])
    | .error .httpError =>
      match s .postSearchJql with
      | .ok d => .ok (d, [.getSearch, .postSearch, .postSearchJql])
      | .error e => .error e
    | .error .reqError => .error .reqError
  | .error .reqError => .error .reqError

/-- One host-integration FilterResult (`results[filter_id]`); a missing
`error` key reads as `None`, modelled as `none`. -/
structure HAResult where
  filter_id : String
  filter_name : String
  jql : Json
  total_count : Nat
  issues : List Json
  most_recent_ticket : Option Json
  last_updated : String
  error : Option String

/-- Rendering `str(e)` of a caught RequestException. -/
def failStr : Fail → String
  | .httpError => "HTTPError"
  | .reqError => "RequestException"

/-- Iteration over the response's `issues` value; the engine only ever
iterates list-shaped values, anything else raises. -/
def asArr : Json → Except String (List Json)
  | .arr xs => .ok xs
  | _ => .error "TypeError"

/-- The per-filter `try` body of `_fetch_jira_data`: resolve the filter, read
its `jql` (default `""`), run the single-page search with endpoint fallback,
simplify every returned issue, and compute the most-recent ticket. -/
def fetchFilterBody (env : HAEnv) (humanTime : Json → String) (fid : String)
    (maxR : Nat) : Except PyErr (Json × List Json × Option Json) := do
  let fdata ← liftReq (env.resolve fid)
  let jql ← liftStr (dictGet fdata "jql" (.str ""))
  let sdata ← liftReq (haSearch (env.search fid maxR))
  let rawIssues ← liftStr (dictGet sdata.1 "issues" (.arr []))
  let issuesL ← liftStr (asArr rawIssues)
  let simplified ← liftStr (issuesL.mapM simplifyIssue)
  let mro ← liftStr (mostRecentIssue simplified)
  let mrt ← match mro with
    | some mr => do
      let m ← liftStr (mkMostRecent humanTime mr)
      pure (some m)
    | none => pure (none : Option Json)
  pure (jql, simplified, mrt)

/-- One per-filter step: a caught `RequestException` produces the error record
with zeroed data fields (sensor.py lines 242-253); any other exception
propagates as a cycle-level error. -/
def fetchFilter (env : HAEnv) (humanTime : Json → String) (fid fname : String)
    (maxR : Nat) (now : String) : Except String HAResult :=
  match fetchFilterBody env humanTime fid maxR with
  | .ok (jql, simplified, mrt) =>
    .ok { filter_id := fid, filter_name := fname, jql := jql,
          total_count := simplified.length, issues := simplified,
          most_recent_ticket := mrt, last_updated := now, error := none }
  | .error (.req f) =>
    .ok { filter_id := fid, filter_name := fname, jql := .str "",
          total_count := 0, issues := [], most_recent_ticket := none,
          last_updated := now, error := some (failStr f) }
  | .error (.other e) => .error e

/-- Python dict assignment `results[filter_id] = ...`: replaces an existing
key in place, otherwise appends. -/
def dictInsert {α : Type} (k : String) (v : α) : List (String × α) → List (String × α)
  | [] => [(k, v)]
  | (k2, v2) :: rest => if k2 = k then (k, v) :: rest else (k2, v2) :: dictInsert k v rest

def fetchJiraDataGo (env : HAEnv) (humanTime : Json → String) (maxR : Nat) (now : String) :
    List (String × String) → List (String × HAResult) →
      Except String (List (String × HAResult))
  | [], acc => .ok acc
  | (fid, fname) :: rest, acc => do
    let r ← fetchFilter env humanTime fid fname maxR now
    fetchJiraDataGo env humanTime maxR now rest (dictInsert fid r acc)

/-- Embeds `_fetch_jira_data`: the `results` dict, one refresh cycle. -/
def fetchJiraData (env : HAEnv) (humanTime : Json → String)
    (filters : List (String × String)) (maxR : Nat) (now : String) :
    Except String (List (String × HAResult)) :=
  fetchJiraDataGo env humanTime maxR now filters []

/-! ### Concrete environments for the pipeline claims -/
/-- Batch environment of the 3-filter partial-failure scenario: filter "2"
fails to resolve, the others resolve and their search returns one issue. -/
def c1Env : BatchEnv :=
  { getFilter := fun fid =>
      if fid = "2" then none
      else some (.obj [("name", .str ("F" ++ fid)), ("jql", .str ("project = " ++ fid))]),
    search := fun _ => oneShotServer [mkIssue "B-1" "2024-01-01T00:00:00Z"] }

/-- Host environment of the 3-filter partial-failure scenario: resolving
filter "2" fails with an HTTP error, the primary search endpoint returns one
issue for the others. -/
def c1HAEnv : HAEnv :=
  { resolve := fun fid =>
      if fid = "2" then .error .httpError
      else .ok (.obj [("jql", .str ("project = " ++ fid))]),
    search := fun _ _ ep =>
      match ep with
      | .getSearch => .ok (.obj [("issues", .arr [mkIssue "B-1" "2024-01-01T00:00:00Z"])])
      | _ => .error .reqError }

/-- Batch environment whose only filter resolves with an empty JQL. -/
def c3Env : BatchEnv :=
  { getFilter := fun _ => some (.obj [("name", .str "F"), ("jql", .str "")]),
    search := fun _ => oneShotServer [mkIssue "C-1" "2024-01-01T00:00:00Z"] }

/-- Host environment whose only filter resolves with an empty JQL and whose
search nevertheless returns one issue. -/
def c3HAEnv : HAEnv :=
  { resolve := fun _ => .ok (.obj [("jql", .str "")]),
    search := fun _ _ ep =>
      match ep with
      | .getSearch => .ok (.obj [("issues", .arr [mkIssue "C-1" "2024-01-01T00:00:00Z"])])
      | _ => .error .reqError }

/-! ### Elementary computation lemmas for the embedded Python primitives -/
theorem dictGet_obj (kvs : List (String × Json)) (k : String) (d : Json) :
    dictGet (.obj kvs) k d = .ok ((kvs.lookup k).getD d) := rfl

theorem except_bind_ok {ε α β : Type} (a : α) (f : α → Except ε β) :
    (Except.ok a >>= f : Except ε β) = f a := rfl

theorem except_bind_err {ε α β : Type} (e : ε) (f : α → Except ε β) :
    (Except.error e >>= f : Except ε β) = .error e := rfl

theorem except_pure_eq {ε α : Type} (a : α) : (pure a : Except ε α) = .ok a := rfl

theorem except_map_ok {ε α β : Type} (f : α → β) (a : α) :
    (f <$> (Except.ok a : Except ε α)) = .ok (f a) := rfl

theorem except_map_ok' {ε α β : Type} (f : α → β) (a : α) :
    Except.map f (Except.ok a : Except ε α) = .ok (f a) := rfl

theorem pyOr_obj_of_safe (o : Option Json) (h : safeNestedVal o = true) :
    ∃ skvs, pyOr (o.getD .null) (.obj []) = .obj skvs := by
  cases o with
  | none => exact ⟨[], rfl⟩
  | some v =>
    simp only [safeNestedVal, Bool.or_eq_true, Bool.not_eq_true'] at h
    rcases h with h | h
    · exact ⟨[], by simp [pyOr, h]⟩
    · cases v with
      | obj kvs =>
        by_cases hp : pyTruthy (.obj kvs)
        · exact ⟨kvs, by simp [pyOr, hp]⟩
        · exact ⟨[], by simp [pyOr, hp]⟩
      | null => simp [Json.isObj] at h
      | bool b => simp [Json.isObj] at h
      | num n => simp [Json.isObj] at h
      | str s => simp [Json.isObj] at h
      | arr xs => simp [Json.isObj] at h

theorem projStatus_obj (skvs : List (String × Json)) :
    projStatus (.obj skvs) =
      .ok (.obj [("name", (skvs.lookup "name").getD .null),
                 ("category", catOf ((skvs.lookup "statusCategory").getD .null))]) := by
  cases hsc : (skvs.lookup "statusCategory").getD .null with
  | obj sckvs =>
    cases sckvs with
    | nil =>
      simp [projStatus, dictGet, hsc, catOf, Json.isObj, pyOr, pyTruthy,
        except_bind_ok, except_pure_eq, except_map_ok]
    | cons a l =>
      simp [projStatus, dictGet, hsc, catOf, Json.isObj, pyOr, pyTruthy,
        except_bind_ok, except_pure_eq, except_map_ok]
  | null =>
    simp [projStatus, dictGet, hsc, catOf, Json.isObj,
      except_bind_ok, except_pure_eq, except_map_ok]
  | bool b =>
    simp [projStatus, dictGet, hsc, catOf, Json.isObj,
      except_bind_ok, except_pure_eq, except_map_ok]
  | num n =>
    simp [projStatus, dictGet, hsc, catOf, Json.isObj,
      except_bind_ok, except_pure_eq, except_map_ok]
  | str s =>
    simp [projStatus, dictGet, hsc, catOf, Json.isObj,
      except_bind_ok, except_pure_eq, except_map_ok]
  | arr xs =>
    simp [projStatus, dictGet, hsc, catOf, Json.isObj,
      except_bind_ok, except_pure_eq, except_map_ok]

theorem projName_obj (pkvs : List (String × Json)) :
    projName (.obj pkvs) = .ok (nameValOf pkvs) := by
  by_cases hp : pkvs.isEmpty <;>
    simp [projName, dictGet, pyTruthy, hp, nameValOf, except_pure_eq]

theorem projAssignee_obj (akvs : List (String × Json)) :
    projAssignee (.obj akvs) = .ok (assigneeValOf akvs) := by
  by_cases hp : akvs.isEmpty <;>
    simp [projAssignee, pyTruthy, hp, dictGet, assigneeValOf,
      except_bind_ok, except_pure_eq]

theorem projParent_obj (pkvs : List (String × Json)) :
    projParent (.obj pkvs) = .ok (parentValOf pkvs) := by
  by_cases hp : pkvs.isEmpty
  · simp [projParent, pyTruthy, hp, parentValOf, except_pure_eq]
  · cases hpf : (pkvs.lookup "fields").getD .null with
    | obj fkvs =>
      by_cases hf : fkvs.isEmpty <;>
        simp [projParent, pyTruthy, hp, dictGet, hpf, Json.isObj, pyOr, hf,
          parentValOf, parentSummaryOf, except_bind_ok, except_pure_eq]
    | null =>
      simp [projParent, pyTruthy, hp, dictGet, hpf, Json.isObj,
        parentValOf, parentSummaryOf, except_bind_ok, except_pure_eq]
    | bool b =>
      simp [projParent, pyTruthy, hp, dictGet, hpf, Json.isObj,
        parentValOf, parentSummaryOf, except_bind_ok, except_pure_eq]
    | num n =>
      simp [projParent, pyTruthy, hp, dictGet, hpf, Json.isObj,
        parentValOf, parentSummaryOf, except_bind_ok, except_pure_eq]
    | str s =>
      simp [projParent, pyTruthy, hp, dictGet, hpf, Json.isObj,
        parentValOf, parentSummaryOf, except_bind_ok, except_pure_eq]
    | arr xs =>
      simp [projParent, pyTruthy, hp, dictGet, hpf, Json.isObj,
        parentValOf, parentSummaryOf, except_bind_ok, except_pure_eq]

theorem projStatus_obj_val (skvs : List (String × Json)) :
    projStatus (.obj skvs) = .ok (statusValOf skvs) := projStatus_obj skvs

/-- Full closed form of `_simplify_issue` on a dict issue whose five optional
nested members have been resolved (via `x or \x7b\x7d`) to dicts. -/
theorem simplifyIssue_obj_eq (kvs fkvs sv av pv itv parv : List (String × Json))
    (hfv : (kvs.lookup "fields").getD (.obj []) = .obj fkvs)
    (hsv : pyOr ((fkvs.lookup "status").getD .null) (.obj []) = .obj sv)
    (hav : pyOr ((fkvs.lookup "assignee").getD .null) (.obj []) = .obj av)
    (hpv : pyOr ((fkvs.lookup "priority").getD .null) (.obj []) = .obj pv)
    (hitv : pyOr ((fkvs.lookup "issuetype").getD .null) (.obj []) = .obj itv)
    (hparv : pyOr ((fkvs.lookup "parent").getD .null) (.obj []) = .obj parv) :
    simplifyIssue (.obj kvs) = .ok (.obj [
      ("id", (kvs.lookup "id").getD .null),
      ("key", (kvs.lookup "key").getD .null),
      ("summary", (fkvs.lookup "summary").getD .null),
      ("status", statusValOf sv),
      ("assignee", assigneeValOf av),
      ("priority", nameValOf pv),
      ("issueType", nameValOf itv),
      ("parent", parentValOf parv),
      ("labels", (fkvs.lookup "labels").getD (.arr [])),
      ("created", (fkvs.lookup "created").getD .null),
      ("updated", (fkvs.lookup "updated").getD .null)]) := by
  simp [simplifyIssue, dictGet, hfv, hsv, hav, hpv, hitv, hparv,
    projStatus_obj_val, projName_obj, projAssignee_obj, projParent_obj,
    except_bind_ok, except_pure_eq]

theorem wellFormed_shape (kvs : List (String × Json))
    (hwf : wellFormedIssue (.obj kvs) = true) :
    ∃ fkvs : List (String × Json),
      (kvs.lookup "fields").getD (.obj []) = .obj fkvs ∧
      safeNestedVal (fkvs.lookup "status") = true ∧
      safeNestedVal (fkvs.lookup "assignee") = true ∧
      safeNestedVal (fkvs.lookup "priority") = true ∧
      safeNestedVal (fkvs.lookup "issuetype") = true ∧
      safeNestedVal (fkvs.lookup "parent") = true ∧
      (∀ k, fieldVal (.obj kvs) k = fkvs.lookup k) := by
  cases hfv : kvs.lookup "fields" with
  | none =>
    exact ⟨[], by simp [hfv], rfl, rfl, rfl, rfl, rfl, fun k => by simp [fieldVal, hfv]⟩
  | some v =>
    cases v with
    | obj fkvs =>
      simp only [wellFormedIssue, hfv, Bool.and_eq_true] at hwf
      exact ⟨fkvs, by simp [hfv], hwf.1.1.1.1, hwf.1.1.1.2, hwf.1.1.2, hwf.1.2, hwf.2,
        fun k => by simp [fieldVal, hfv]⟩
    | null => simp [wellFormedIssue, hfv] at hwf
    | bool b => simp [wellFormedIssue, hfv] at hwf
    | num n => simp [wellFormedIssue, hfv] at hwf
    | str s => simp [wellFormedIssue, hfv] at hwf
    | arr xs => simp [wellFormedIssue, hfv] at hwf

theorem pyOr_empty_of_null {o : Option Json} (h : o.getD .null = .null) :
    pyOr (o.getD .null) (.obj []) = .obj [] := by
  rw [h]; rfl

/-- C6 (amended core): on a well-formed raw issue the normalizer succeeds and
propagates missing/null optional members as JSON `null` in the output. -/
theorem simplifyIssue_wellFormed (issue : Json) (hwf : wellFormedIssue issue = true) :
    ∃ out, simplifyIssue issue = .ok out ∧
      (missingOrNull issue "assignee" = true → outLookup out "assignee" = some .null) ∧
      (missingOrNull issue "priority" = true → outLookup out "priority" = some .null) ∧
      (missingOrNull issue "issuetype" = true → outLookup out "issueType" = some .null) ∧
      (missingOrNull issue "parent" = true → outLookup out "parent" = some .null) ∧
      (missingOrNull issue "status" = true →
        outLookup out "status" = some (.obj [("name", .null), ("category", .null)])) ∧
      (∀ skvs : List (String × Json), fieldVal issue "status" = some (.obj skvs) →
        (skvs.lookup "statusCategory").getD .null = .null →
        ∃ n, outLookup out "status" = some (.obj [("name", n), ("category", .null)])) := by
  cases issue with
  | null => simp [wellFormedIssue] at hwf
  | bool b => simp [wellFormedIssue] at hwf
  | num n => simp [wellFormedIssue] at hwf
  | str s => simp [wellFormedIssue] at hwf
  | arr xs => simp [wellFormedIssue] at hwf
  | obj kvs =>
    obtain ⟨fkvs, hfv, hs, ha, hp2, hit, hpar, hfield⟩ := wellFormed_shape kvs hwf
    obtain ⟨sv, hsv⟩ := pyOr_obj_of_safe _ hs
    obtain ⟨av, hav⟩ := pyOr_obj_of_safe _ ha
    obtain ⟨pv, hpv⟩ := pyOr_obj_of_safe _ hp2
    obtain ⟨itv, hitv⟩ := pyOr_obj_of_safe _ hit
    obtain ⟨parv, hparv⟩ := pyOr_obj_of_safe _ hpar
    have hnull : ∀ k, missingOrNull (.obj kvs) k = true →
        (fkvs.lookup k).getD .null = .null := by
      intro k hk
      rw [missingOrNull, hfield k] at hk
      cases hlk : fkvs.lookup k with
      | none => rfl
      | some v => cases v <;> simp [hlk] at hk ⊢
    refine ⟨_, simplifyIssue_obj_eq kvs fkvs sv av pv itv parv hfv hsv hav hpv hitv hparv,
      ?_, ?_, ?_, ?_, ?_, ?_⟩
    · intro hmn
      have h0 : Json.obj av = Json.obj [] := by
        rw [← hav, pyOr_empty_of_null (hnull _ hmn)]
      cases h0
      rfl
    · intro hmn
      have h0 : Json.obj pv = Json.obj [] := by
        rw [← hpv, pyOr_empty_of_null (hnull _ hmn)]
      cases h0
      rfl
    · intro hmn
      have h0 : Json.obj itv = Json.obj [] := by
        rw [← hitv, pyOr_empty_of_null (hnull _ hmn)]
      cases h0
      rfl
    · intro hmn
      have h0 : Json.obj parv = Json.obj [] := by
        rw [← hparv, pyOr_empty_of_null (hnull _ hmn)]
      cases h0
      rfl
    · intro hmn
      have h0 : Json.obj sv = Json.obj [] := by
        rw [← hsv, pyOr_empty_of_null (hnull _ hmn)]
      cases h0
      rfl
    · intro skvs hval hsc
      rw [hfield "status"] at hval
      rw [hval] at hsv
      simp only [Option.getD_some] at hsv
      by_cases hse : skvs.isEmpty
      · have h1 : sv = [] := by
          have h := hsv
          simp [pyOr, pyTruthy, hse] at h
          exact h
        subst h1
        exact ⟨.null, rfl⟩
      · have h1 : sv = skvs := by
          have h := hsv
          simp [pyOr, pyTruthy, hse] at h
          exact h.symm
        subst h1
        refine ⟨(sv.lookup "name").getD .null, ?_⟩
        have hcat : statusValOf sv =
            Json.obj [("name", (sv.lookup "name").getD .null), ("category", Json.null)] := by
          unfold statusValOf
          rw [hsc]
          rfl
        rw [hcat]
        rfl

/-- C6 (corrected): the normalizer, as written, raises an AttributeError on the
well-formed JSON object `{"fields": null}` — `issue.get('fields', {})` only
substitutes the default when the key is absent, not when it is null, so
`None.get('status')` is then attempted. This refutes the claim that it never
raises on well-formed JSON objects. -/
theorem simplifyIssue_raises_on_null_fields :
    simplifyIssue (.obj [("fields", Json.null)]) = .error "AttributeError" := rfl

/-- C6 (amended): for every raw issue that is a JSON object whose `fields`
member, when present, is an object, and whose optional nested members
(`status`, `assignee`, `priority`, `issuetype`, `parent`) are each missing,
falsy or objects, `_simplify_issue` never raises, and each enumerated optional
member that is missing or null yields `null` in the output (for `status`, a
null-valued `name`/`category`; a missing or null `statusCategory` yields a null
`category`). -/
theorem issue_normalizer_null_safe (issue : Json) (hwf : wellFormedIssue issue = true) :
    ∃ out, simplifyIssue issue = .ok out ∧
      (missingOrNull issue "assignee" = true → outLookup out "assignee" = some .null) ∧
      (missingOrNull issue "priority" = true → outLookup out "priority" = some .null) ∧
      (missingOrNull issue "issuetype" = true → outLookup out "issueType" = some .null) ∧
      (missingOrNull issue "parent" = true → outLookup out "parent" = some .null) ∧
      (missingOrNull issue "status" = true →
        outLookup out "status" = some (.obj [("name", .null), ("category", .null)])) ∧
      (∀ skvs : List (String × Json), fieldVal issue "status" = some (.obj skvs) →
        (skvs.lookup "statusCategory").getD .null = .null →
        ∃ n, outLookup out "status" = some (.obj [("name", n), ("category", .null)])) :=
  simplifyIssue_wellFormed issue hwf

theorem issue_normalizer_null_safe_witness :
    ∃ out, simplifyIssue c6Issue = .ok out ∧
      (missingOrNull c6Issue "assignee" = true → outLookup out "assignee" = some .null) ∧
      (missingOrNull c6Issue "priority" = true → outLookup out "priority" = some .null) ∧
      (missingOrNull c6Issue "issuetype" = true → outLookup out "issueType" = some .null) ∧
      (missingOrNull c6Issue "parent" = true → outLookup out "parent" = some .null) ∧
      (missingOrNull c6Issue "status" = true →
        outLookup out "status" = some (.obj [("name", .null), ("category", .null)])) ∧
      (∀ skvs : List (String × Json), fieldVal c6Issue "status" = some (.obj skvs) →
        (skvs.lookup "statusCategory").getD .null = .null →
        ∃ n, outLookup out "status" = some (.obj [("name", n), ("category", .null)])) :=
  issue_normalizer_null_safe c6Issue (by decide)

/-- C8 (counterexample): at an age of exactly 60 seconds the code renders
"just now" (the comparison is strict: `diff.seconds > 60`), not the
"1 minute ago" required by the claim's buckets (60 s is not under 60 s, so the
claim puts it in the minutes bucket). -/
theorem humanTime_at_60s_is_just_now :
    humanTimeOfDiff 60 = "just now" ∧ "just now" ≠ "1 minute ago" :=
  ⟨rfl, by decide⟩

/-- C8 (amended): the buckets hold with the boundaries the code actually uses,
inclusive on the lower side: ≤ 60 s → "just now"; (60 s, 1 h] → minutes;
(1 h, 24 h) → hours; the day/week/month buckets are as claimed, and so are the
claim's three spot checks (90 s, 3 days, 40 days). -/
theorem human_time_buckets (d : Nat) :
    (d ≤ 60 → humanTimeOfDiff d = "just now") ∧
    (60 < d → d ≤ 3600 → humanTimeOfDiff d = agoStr (d / 60) "minute") ∧
    (3600 < d → d < 86400 → humanTimeOfDiff d = agoStr (d / 3600) "hour") ∧
    (86400 ≤ d → d < 2 * 86400 → humanTimeOfDiff d = "1 day ago") ∧
    (2 * 86400 ≤ d → d < 7 * 86400 → humanTimeOfDiff d = s!"{d / 86400} days ago") ∧
    (7 * 86400 ≤ d → d < 30 * 86400 → humanTimeOfDiff d = agoStr (d / 86400 / 7) "week") ∧
    (30 * 86400 ≤ d → humanTimeOfDiff d = agoStr (d / 86400 / 30) "month") ∧
    humanTimeOfDiff 90 = "1 minute ago" ∧
    humanTimeOfDiff (3 * 86400) = "3 days ago" ∧
    humanTimeOfDiff (40 * 86400) = "1 month ago" := by
  refine ⟨?_, ?_, ?_, ?_, ?_, ?_, ?_, by decide, by decide, by decide⟩
  · intro h
    have h1 : d / 86400 = 0 := by omega
    have h2 : d % 86400 = d := by omega
    simp only [humanTimeOfDiff, formatHumanTime, h1, h2]
    have h3 : ¬(d > 3600) := by omega
    have h4 : ¬(d > 60) := by omega
    simp [h3, h4]
  · intro h h'
    have h1 : d / 86400 = 0 := by omega
    have h2 : d % 86400 = d := by omega
    simp only [humanTimeOfDiff, formatHumanTime, h1, h2]
    have h3 : ¬(d > 3600) := by omega
    have h4 : d > 60 := by omega
    simp [h3, h4]
  · intro h h'
    have h1 : d / 86400 = 0 := by omega
    have h2 : d % 86400 = d := by omega
    simp only [humanTimeOfDiff, formatHumanTime, h1, h2]
    have h3 : d > 3600 := by omega
    simp [h3]
  · intro h h'
    have h1 : d / 86400 = 1 := by omega
    simp only [humanTimeOfDiff, formatHumanTime, h1]
    simp
  · intro h h'
    have h1 : 0 < d / 86400 := by omega
    have h2 : d / 86400 ≠ 1 := by omega
    have h3 : d / 86400 < 7 := by omega
    simp only [humanTimeOfDiff, formatHumanTime]
    simp [h1, h2, h3]
  · intro h h'
    have h1 : 0 < d / 86400 := by omega
    have h2 : d / 86400 ≠ 1 := by omega
    have h3 : ¬(d / 86400 < 7) := by omega
    have h4 : d / 86400 < 30 := by omega
    simp only [humanTimeOfDiff, formatHumanTime]
    simp [h1, h2, h3, h4]
  · intro h
    have h1 : 0 < d / 86400 := by omega
    have h2 : d / 86400 ≠ 1 := by omega
    have h3 : ¬(d / 86400 < 7) := by omega
    have h4 : ¬(d / 86400 < 30) := by omega
    simp only [humanTimeOfDiff, formatHumanTime]
    simp [h1, h2, h3, h4]

theorem human_time_buckets_witness : humanTimeOfDiff 90 = agoStr (90 / 60) "minute" :=
  (human_time_buckets 90).2.1 (by decide) (by decide)

/-- On strings, the embedded Python `<` agrees with the lexicographic order. -/
theorem pyLt_str (x y : String) : pyLt (.str x) (.str y) = .ok (decide (x < y)) := by
  show Except.ok (decide (x.data < y.data)) = .ok (decide (x < y))
  congr 1
  rw [decide_eq_decide]
  exact String.lt_iff_toList_lt.symm

theorem insertDescM_str (x : Json × Json) (l : List (Json × Json))
    (hx : ∃ s, x.2 = Json.str s) (hl : StrKeyed l) :
    insertDescM x l = .ok (insertDescS x l) ∧ StrKeyed (insertDescS x l) := by
  induction l with
  | nil =>
    refine ⟨rfl, ?_⟩
    intro p hp
    simp only [insertDescS, List.mem_singleton] at hp
    exact hp ▸ hx
  | cons y ys ih =>
    obtain ⟨sx, hsx⟩ := hx
    obtain ⟨sy, hsy⟩ := hl y (List.mem_cons_self y ys)
    have hys : StrKeyed ys := fun p hp => hl p (List.mem_cons_of_mem y hp)
    obtain ⟨ih1, ih2⟩ := ih hys
    have hlt : pyLt y.2 x.2 = .ok (decide (sy < sx)) := by rw [hsx, hsy]; exact pyLt_str sy sx
    by_cases hc : sy < sx
    · have hj : jstr y.2 < jstr x.2 := by rw [hsx, hsy]; exact hc
      refine ⟨?_, ?_⟩
      · simp [insertDescM, insertDescS, hlt, hc, hj, except_bind_ok, except_pure_eq]
      · intro p hp
        rw [insertDescS, if_pos hj] at hp
        simp only [List.mem_cons] at hp
        rcases hp with rfl | rfl | hp
        · exact ⟨sx, hsx⟩
        · exact ⟨sy, hsy⟩
        · exact hys p hp
    · have hj : ¬(jstr y.2 < jstr x.2) := by rw [hsx, hsy]; exact hc
      refine ⟨?_, ?_⟩
      · simp [insertDescM, insertDescS, hlt, hc, hj, ih1, except_bind_ok, except_pure_eq]
      · intro p hp
        rw [insertDescS, if_neg hj] at hp
        simp only [List.mem_cons] at hp
        rcases hp with rfl | hp
        · exact ⟨sy, hsy⟩
        · exact ih2 p hp

theorem foldlM_insert_str (l : List (Json × Json)) :
    ∀ acc : List (Json × Json), StrKeyed l → StrKeyed acc →
      l.foldlM (fun acc x => insertDescM x acc) acc =
        .ok (l.foldl (fun acc x => insertDescS x acc) acc) ∧
      StrKeyed (l.foldl (fun acc x => insertDescS x acc) acc) := by
  induction l with
  | nil => exact fun acc _ hacc => ⟨rfl, hacc⟩
  | cons x xs ih =>
    intro acc hl hacc
    have hx : ∃ s, x.2 = Json.str s := hl x (List.mem_cons_self x xs)
    have hxs : StrKeyed xs := fun p hp => hl p (List.mem_cons_of_mem x hp)
    obtain ⟨h1, h2⟩ := insertDescM_str x acc hx hacc
    obtain ⟨h3, h4⟩ := ih (insertDescS x acc) hxs h2
    refine ⟨?_, h4⟩
    rw [List.foldlM_cons, h1, except_bind_ok, h3, List.foldl_cons]

theorem sortPairsM_str (l : List (Json × Json)) (hl : StrKeyed l) :
    sortPairsM l = .ok (sortPairsS l) ∧ StrKeyed (sortPairsS l) :=
  foldlM_insert_str l [] hl (fun p hp => absurd hp (List.not_mem_nil p))

theorem decorate_str (l : List Json)
    (h : ∀ x ∈ l, ∃ s, updatedKeyE x = .ok (Json.str s)) :
    decorate l = .ok (l.map (fun x => (x, Json.str (updStr x)))) := by
  induction l with
  | nil => rfl
  | cons x xs ih =>
    obtain ⟨s, hs⟩ := h x (List.mem_cons_self x xs)
    have hus : updStr x = s := by rw [updStr, hs]; rfl
    have hxs := ih (fun y hy => h y (List.mem_cons_of_mem x hy))
    rw [decorate] at hxs ⊢
    rw [List.mapM_cons, hs, hxs]
    simp [hus, except_bind_ok, except_map_ok, except_map_ok', except_pure_eq]

theorem head_insertDescS (x y : Json × Json) (ys : List (Json × Json)) :
    (insertDescS x (y :: ys)).head? = some (if jstr y.2 < jstr x.2 then x else y) := by
  rw [insertDescS]
  by_cases hc : jstr y.2 < jstr x.2 <;> simp [hc]

theorem head_foldl_insert (l : List (Json × Json)) :
    ∀ (acc : List (Json × Json)) (b : Json × Json), acc.head? = some b →
      (l.foldl (fun acc x => insertDescS x acc) acc).head? = some (scanDesc b l) := by
  induction l with
  | nil => exact fun acc b hb => hb
  | cons x xs ih =>
    intro acc b hb
    cases acc with
    | nil => simp at hb
    | cons a t =>
      have hab : a = b := by simpa using hb
      subst hab
      rw [List.foldl_cons]
      rw [ih _ _ (head_insertDescS x a t)]
      rfl

theorem scanDesc_le (l : List (Json × Json)) :
    ∀ b : Json × Json, jstr b.2 ≤ jstr (scanDesc b l).2 := by
  induction l with
  | nil => exact fun b => le_refl _
  | cons y ys ih =>
    intro b
    show jstr b.2 ≤ jstr (scanDesc (if jstr b.2 < jstr y.2 then y else b) ys).2
    by_cases hc : jstr b.2 < jstr y.2
    · rw [if_pos hc]
      exact le_of_lt (lt_of_lt_of_le hc (ih y))
    · rw [if_neg hc]
      exact ih b

theorem scanDesc_split (l : List (Json × Json)) :
    ∀ b : Json × Json, ∃ pre post, b :: l = pre ++ scanDesc b l :: post ∧
      (∀ z ∈ pre, jstr z.2 < jstr (scanDesc b l).2) ∧
      (∀ z ∈ post, jstr z.2 ≤ jstr (scanDesc b l).2) := by
  induction l with
  | nil =>
    intro b
    exact ⟨[], [], rfl, fun z hz => absurd hz (List.not_mem_nil z),
      fun z hz => absurd hz (List.not_mem_nil z)⟩
  | cons y ys ih =>
    intro b
    have hstep : scanDesc b (y :: ys) = scanDesc (if jstr b.2 < jstr y.2 then y else b) ys := rfl
    by_cases hc : jstr b.2 < jstr y.2
    · obtain ⟨pre, post, hsp, hpre, hpost⟩ := ih y
      rw [hstep, if_pos hc]
      refine ⟨b :: pre, post, ?_, ?_, hpost⟩
      · rw [List.cons_append, ← hsp]
      · intro z hz
        simp only [List.mem_cons] at hz
        rcases hz with rfl | hz
        · exact lt_of_lt_of_le hc (scanDesc_le ys y)
        · exact hpre z hz
    · obtain ⟨pre, post, hsp, hpre, hpost⟩ := ih b
      rw [hstep, if_neg hc]
      cases pre with
      | nil =>
        simp only [List.nil_append] at hsp
        obtain ⟨hb, hys⟩ : b = scanDesc b ys ∧ ys = post := by
          constructor
          · exact (List.cons_eq_cons.mp hsp).1
          · exact (List.cons_eq_cons.mp hsp).2
        refine ⟨[], y :: ys, ?_, fun z hz => absurd hz (List.not_mem_nil z), ?_⟩
        · rw [List.nil_append, ← hb]
        · intro z hz
          simp only [List.mem_cons] at hz
          rcases hz with rfl | hz
          · rw [← hb]
            exact le_of_not_lt hc
          · rw [hys] at hz
            exact hpost z hz
      | cons p pre2 =>
        rw [List.cons_append] at hsp
        obtain ⟨hp, hys⟩ := List.cons_eq_cons.mp hsp
        refine ⟨b :: y :: pre2, post, ?_, ?_, hpost⟩
        · rw [List.cons_append, List.cons_append, ← hys]
        · intro z hz
          have hb_lt : jstr b.2 < jstr (scanDesc b ys).2 := by
            have := hpre p (List.mem_cons_self p pre2)
            rw [← hp] at this
            exact this
          simp only [List.mem_cons] at hz
          rcases hz with rfl | rfl | hz
          · exact hb_lt
          · exact lt_of_le_of_lt (le_of_not_lt hc) hb_lt
          · exact hpre z (List.mem_cons_of_mem p hz)

theorem map_eq_append_cons {α β : Type} (f : α → β) :
    ∀ (l : List α) (A : List β) (b : β) (B : List β), l.map f = A ++ b :: B →
      ∃ l₁ c l₂, l = l₁ ++ c :: l₂ ∧ l₁.map f = A ∧ f c = b ∧ l₂.map f = B := by
  intro l A
  induction A generalizing l with
  | nil =>
    intro b B h
    cases l with
    | nil => simp at h
    | cons c l₂ =>
      rw [List.map_cons, List.nil_append] at h
      obtain ⟨h1, h2⟩ := List.cons_eq_cons.mp h
      exact ⟨[], c, l₂, rfl, rfl, h1, h2⟩
  | cons a A' ih =>
    intro b B h
    cases l with
    | nil => simp at h
    | cons x l' =>
      rw [List.map_cons, List.cons_append] at h
      obtain ⟨h1, h2⟩ := List.cons_eq_cons.mp h
      obtain ⟨l₁, c, l₂, hl, hl1, hc, hl2⟩ := ih l' b B h2
      exact ⟨x :: l₁, c, l₂, by rw [List.cons_append, ← hl], by rw [List.map_cons, h1, hl1],
        hc, hl2⟩

/-- C7 (confirmed): `most_recent` selection — `None` on an empty list; on a
non-empty list of issues with string `updated` values the engine returns the
element whose `updated` is maximal under lexical string comparison, the first
such element in response order (stable descending sort, then index 0); and on
the claim's example (Jan, Mar, Feb) it selects the March record. -/
theorem recency_selection :
    mostRecentIssue [] = .ok none ∧
    (∀ l : List Json, l ≠ [] → (∀ x ∈ l, ∃ s, updatedKeyE x = .ok (Json.str s)) →
      ∃ pre i post, l = pre ++ i :: post ∧ mostRecentIssue l = .ok (some i) ∧
        (∀ j ∈ pre, updStr j < updStr i) ∧ (∀ j ∈ post, updStr j ≤ updStr i)) ∧
    mostRecentIssue [c7Jan, c7Mar, c7Feb] = .ok (some c7Mar) := by
  refine ⟨rfl, ?_, by rfl⟩
  intro l hne hkeys
  obtain ⟨x, xs, rfl⟩ : ∃ x xs, l = x :: xs := by
    cases l with
    | nil => exact absurd rfl hne
    | cons x xs => exact ⟨x, xs, rfl⟩
  have hdec : decorate (x :: xs) =
      .ok ((x :: xs).map (fun z => (z, Json.str (updStr z)))) := decorate_str _ hkeys
  have hstr : StrKeyed ((x :: xs).map (fun z => (z, Json.str (updStr z)))) := by
    intro p hp
    obtain ⟨z, hz, rfl⟩ := List.mem_map.mp hp
    exact ⟨updStr z, rfl⟩
  obtain ⟨hsort, _⟩ := sortPairsM_str _ hstr
  have hhead : (sortPairsS ((x :: xs).map (fun z => (z, Json.str (updStr z))))).head? =
      some (scanDesc (x, Json.str (updStr x))
        (xs.map (fun z => (z, Json.str (updStr z))))) := by
    rw [sortPairsS, List.map_cons, List.foldl_cons]
    exact head_foldl_insert _ _ _ rfl
  obtain ⟨pre, post, hsp, hpre, hpost⟩ :=
    scanDesc_split (xs.map (fun z => (z, Json.str (updStr z)))) (x, Json.str (updStr x))
  have hsp' : (x :: xs).map (fun z => (z, Json.str (updStr z))) =
      pre ++ scanDesc (x, Json.str (updStr x))
        (xs.map (fun z => (z, Json.str (updStr z)))) :: post := by
    rw [List.map_cons]
    exact hsp
  obtain ⟨l₁, c, l₂, hl, hl1, hc, hl2⟩ := map_eq_append_cons _ _ _ _ _ hsp'
  refine ⟨l₁, c, l₂, hl, ?_, ?_, ?_⟩
  · rw [← hc] at hhead
    rw [mostRecentIssue, if_neg (by simp)]
    simp only [sortByUpdatedDescM, hdec, hsort, except_bind_ok, except_pure_eq,
      List.head?_map, hhead, Option.map_some']
  · intro j hj
    have hmem : (j, Json.str (updStr j)) ∈ pre := by
      rw [← hl1]
      exact List.mem_map_of_mem _ hj
    have h2 := hpre _ hmem
    rw [← hc] at h2
    exact h2
  · intro j hj
    have hmem : (j, Json.str (updStr j)) ∈ post := by
      rw [← hl2]
      exact List.mem_map_of_mem _ hj
    have h2 := hpost _ hmem
    rw [← hc] at h2
    exact h2

theorem recency_selection_witness :
    ∃ pre i post, ([c7Jan, c7Mar, c7Feb] : List Json) = pre ++ i :: post ∧
      mostRecentIssue [c7Jan, c7Mar, c7Feb] = .ok (some i) ∧
      (∀ j ∈ pre, updStr j < updStr i) ∧ (∀ j ∈ post, updStr j ≤ updStr i) :=
  recency_selection.2.1 [c7Jan, c7Mar, c7Feb] (by simp) (by
    intro x hx
    simp only [List.mem_cons, List.not_mem_nil, or_false] at hx
    rcases hx with rfl | rfl | rfl
    · exact ⟨"2024-01-01T00:00:00Z", rfl⟩
    · exact ⟨"2024-03-01T00:00:00Z", rfl⟩
    · exact ⟨"2024-02-01T00:00:00Z", rfl⟩)

theorem mapM_ok_length {ε α β : Type} (f : α → Except ε β) :
    ∀ (xs : List α) (ys : List β), xs.mapM f = .ok ys → ys.length = xs.length := by
  intro xs
  induction xs with
  | nil =>
    intro ys h
    simp only [List.mapM_nil, except_pure_eq] at h
    cases h
    rfl
  | cons x xs ih =>
    intro ys h
    rw [List.mapM_cons] at h
    cases hx : f x with
    | error e => rw [hx, except_bind_err] at h; cases h
    | ok y =>
      rw [hx, except_bind_ok] at h
      cases hxs : xs.mapM f with
      | error e => rw [hxs, except_bind_err] at h; cases h
      | ok ys' =>
        rw [hxs, except_bind_ok, except_pure_eq] at h
        cases h
        simp [ih ys' hxs]

theorem mapM_ok_of_all {ε α β : Type} (f : α → Except ε β) :
    ∀ xs : List α, (∀ x ∈ xs, (f x).isOk = true) → ∃ ys, xs.mapM f = .ok ys := by
  intro xs
  induction xs with
  | nil => exact fun _ => ⟨[], rfl⟩
  | cons x xs ih =>
    intro h
    have hx := h x (List.mem_cons_self x xs)
    cases hfx : f x with
    | error e => rw [hfx] at hx; cases hx
    | ok y =>
      obtain ⟨ys, hys⟩ := ih (fun z hz => h z (List.mem_cons_of_mem x hz))
      exact ⟨y :: ys, by rw [List.mapM_cons, hfx, except_bind_ok, hys, except_bind_ok,
        except_pure_eq]⟩

theorem searchLoopF_length_le (server : Server) (maxR : Nat) :
    ∀ (fuel fetched : Nat) (token : Option Nat) (l : List Json) (tr : List (Nat × Nat)),
      searchLoopF server maxR fuel fetched token = (.ok l, tr) → l.length ≤ maxR - fetched := by
  intro fuel
  induction fuel with
  | zero =>
    intro fetched token l tr h
    rw [searchLoopF] at h
    simp only [Prod.mk.injEq, Except.ok.injEq] at h
    rw [← h.1]
    simp
  | succ fuel ih =>
    intro fetched token l tr h
    rw [searchLoopF] at h
    by_cases hlt : fetched < maxR
    · rw [if_pos hlt] at h
      cases hsrv : server token (min 1000 (maxR - fetched)) with
      | error e =>
        simp only [hsrv, Prod.mk.injEq, Except.ok.injEq] at h
        rw [← h.1]
        simp
      | ok page =>
        simp only [hsrv] at h
        cases hmap : (page.issues.take (maxR - fetched)).mapM simplifyIssue with
        | error e =>
          simp only [hmap, Prod.mk.injEq] at h
          exact absurd h.1 (by simp)
        | ok simplified =>
          simp only [hmap] at h
          have hs2 : simplified.length = min (maxR - fetched) page.issues.length := by
            have hml := mapM_ok_length simplifyIssue _ _ hmap
            rw [hml, List.length_take]
          by_cases hstop : (page.isLast || page.issues.isEmpty) = true
          · rw [if_pos hstop] at h
            simp only [Prod.mk.injEq, Except.ok.injEq] at h
            rw [← h.1]
            omega
          · rw [if_neg hstop] at h
            cases htok : page.nextPageToken with
            | none =>
              simp only [htok, Prod.mk.injEq, Except.ok.injEq] at h
              rw [← h.1]
              omega
            | some t =>
              simp only [htok] at h
              cases hres : (searchLoopF server maxR fuel
                  (fetched + min (maxR - fetched) page.issues.length) (some t)).1 with
              | error e =>
                rw [hres] at h
                simp only [Except.map, Prod.mk.injEq] at h
                exact absurd h.1 (by simp)
              | ok r =>
                rw [hres] at h
                simp only [Except.map, Prod.mk.injEq, Except.ok.injEq] at h
                have hpair : searchLoopF server maxR fuel
                    (fetched + min (maxR - fetched) page.issues.length) (some t) =
                    (.ok r, (searchLoopF server maxR fuel
                      (fetched + min (maxR - fetched) page.issues.length) (some t)).2) := by
                  rw [← hres]
                have hr := ih _ _ _ _ hpair
                rw [← h.1, List.length_append]
                omega
    · rw [if_neg hlt] at h
      simp only [Prod.mk.injEq, Except.ok.injEq] at h
      rw [← h.1]
      simp

theorem searchLoopF_trace (server : Server) (maxR : Nat) :
    ∀ (fuel fetched : Nat) (token : Option Nat),
      ∀ e ∈ (searchLoopF server maxR fuel fetched token).2,
        e.2 = min 1000 (maxR - e.1) ∧ e.1 < maxR := by
  intro fuel
  induction fuel with
  | zero =>
    intro fetched token e he
    rw [searchLoopF] at he
    simp at he
  | succ fuel ih =>
    intro fetched token e he
    rw [searchLoopF] at he
    by_cases hlt : fetched < maxR
    · rw [if_pos hlt] at he
      cases hsrv : server token (min 1000 (maxR - fetched)) with
      | error er =>
        simp only [hsrv, List.mem_singleton] at he
        subst he
        exact ⟨rfl, hlt⟩
      | ok page =>
        simp only [hsrv] at he
        cases hmap : (page.issues.take (maxR - fetched)).mapM simplifyIssue with
        | error e2 =>
          simp only [hmap, List.mem_singleton] at he
          subst he
          exact ⟨rfl, hlt⟩
        | ok simplified =>
          simp only [hmap] at he
          by_cases hstop : (page.isLast || page.issues.isEmpty) = true
          · rw [if_pos hstop] at he
            simp only [List.mem_singleton] at he
            subst he
            exact ⟨rfl, hlt⟩
          · rw [if_neg hstop] at he
            cases htok : page.nextPageToken with
            | none =>
              simp only [htok, List.mem_singleton] at he
              subst he
              exact ⟨rfl, hlt⟩
            | some t =>
              simp only [htok, List.mem_cons] at he
              rcases he with rfl | he
              · exact ⟨rfl, hlt⟩
              · exact ih _ _ e he
    · rw [if_neg hlt] at he
      simp at he

theorem searchLoopF_listServer (all : List Json)
    (hall : ∀ i ∈ all, (simplifyIssue i).isOk = true) (maxR : Nat) :
    ∀ (fuel fetched : Nat) (token : Option Nat), fetched ≤ maxR → maxR - fetched < fuel →
      ∃ l, (searchLoopF (listServer all) maxR fuel fetched token).1 = .ok l ∧
        l.length = min (maxR - fetched) (all.length - token.getD 0) := by
  intro fuel
  induction fuel with
  | zero =>
    intro fetched token hle hfu
    omega
  | succ fuel ih =>
    intro fetched token hle hfu
    by_cases hlt : fetched < maxR
    · have hsrv : listServer all token (min 1000 (maxR - fetched)) =
          .ok ⟨(all.drop (token.getD 0)).take (min 1000 (maxR - fetched)),
               decide (all.length ≤ token.getD 0 + min 1000 (maxR - fetched)),
               some (token.getD 0 + min 1000 (maxR - fetched))⟩ := rfl
      have hmem : ∀ i ∈ ((all.drop (token.getD 0)).take
          (min 1000 (maxR - fetched))).take (maxR - fetched), (simplifyIssue i).isOk = true :=
        fun i hi => hall i (List.mem_of_mem_drop (List.mem_of_mem_take
          (List.mem_of_mem_take hi)))
      obtain ⟨simplified, hmap⟩ := mapM_ok_of_all simplifyIssue _ hmem
      have hslen := mapM_ok_length simplifyIssue _ _ hmap
      have hdlen : (all.drop (token.getD 0)).length = all.length - token.getD 0 :=
        List.length_drop _ _
      have hplen : ((all.drop (token.getD 0)).take (min 1000 (maxR - fetched))).length =
          min (min 1000 (maxR - fetched)) (all.length - token.getD 0) := by
        rw [List.length_take, hdlen]
      rw [List.length_take, hplen] at hslen
      rw [searchLoopF, if_pos hlt]
      by_cases hstop : ((decide (all.length ≤ token.getD 0 + min 1000 (maxR - fetched))) ||
          ((all.drop (token.getD 0)).take (min 1000 (maxR - fetched))).isEmpty) = true
      · refine ⟨simplified, ?_, ?_⟩
        · simp only [hsrv, hmap, hstop, if_pos]
        · simp only [Bool.or_eq_true, decide_eq_true_eq, List.isEmpty_iff_length_eq_zero] at hstop
          rcases hstop with hstop | hstop
          · omega
          · rw [hplen] at hstop
            omega
      · simp only [hsrv, hmap, if_neg hstop]
        simp only [Bool.or_eq_true, decide_eq_true_eq, List.isEmpty_iff_length_eq_zero,
          not_or] at hstop
        obtain ⟨hnl, hne⟩ := hstop
        rw [hplen] at hne
        have hnl' : token.getD 0 + min 1000 (maxR - fetched) < all.length := by omega
        have htaken : min (maxR - fetched)
            ((all.drop (token.getD 0)).take (min 1000 (maxR - fetched))).length =
            min 1000 (maxR - fetched) := by
          rw [hplen]
          omega
        rw [htaken]
        obtain ⟨l2, hl2, hl2len⟩ := ih (fetched + min 1000 (maxR - fetched))
          (some (token.getD 0 + min 1000 (maxR - fetched))) (by omega) (by omega)
        rw [hl2]
        refine ⟨simplified ++ l2, rfl, ?_⟩
        rw [List.length_append]
        simp only [Option.getD_some] at hl2len
        omega
    · rw [searchLoopF, if_neg hlt]
      exact ⟨[], rfl, by simp only [List.length_nil]; omega⟩

/-- C2 (confirmed): the paginated executor returns at most `N` issues for any
server; every page it requests has size `min(1000, N - fetched)` (with
`fetched < N` when the request is made); and against a well-behaved paging
server holding `all` matching issues it returns exactly `min N |all|` issues —
in particular exactly `N` whenever the server has at least `N` matches. -/
theorem paginated_search_cap :
    (∀ (server : Server) (N : Nat) (l : List Json),
      searchIssues server N = .ok l → l.length ≤ N) ∧
    (∀ (server : Server) (N : Nat), ∀ e ∈ searchTrace server N,
      e.2 = min 1000 (N - e.1) ∧ e.1 < N) ∧
    (∀ all : List Json, (∀ i ∈ all, (simplifyIssue i).isOk = true) → ∀ N : Nat,
      ∃ l, searchIssues (listServer all) N = .ok l ∧ l.length = min N all.length) := by
  refine ⟨?_, ?_, ?_⟩
  · intro server N l h
    rw [searchIssues] at h
    have hp : searchLoopF server N (N + 1) 0 none =
        (.ok l, (searchLoopF server N (N + 1) 0 none).2) := by
      rw [← h]
    have := searchLoopF_length_le server N (N + 1) 0 none l _ hp
    omega
  · intro server N e he
    exact searchLoopF_trace server N (N + 1) 0 none e he
  · intro all hall N
    obtain ⟨l, h1, h2⟩ := searchLoopF_listServer all hall N (N + 1) 0 none
      (by omega) (by omega)
    refine ⟨l, h1, ?_⟩
    simpa using h2

theorem paginated_search_cap_witness :
    ∃ l, searchIssues (listServer [mkIssue "W-1" "2024-01-01T00:00:00Z",
        mkIssue "W-2" "2024-01-02T00:00:00Z", mkIssue "W-3" "2024-01-03T00:00:00Z"]) 2 =
      .ok l ∧
    l.length = min 2 ([mkIssue "W-1" "2024-01-01T00:00:00Z",
        mkIssue "W-2" "2024-01-02T00:00:00Z",
        mkIssue "W-3" "2024-01-03T00:00:00Z"] : List Json).length :=
  paginated_search_cap.2.2 _ (by decide) 2

/-- C4 (counterexample): when the second page request fails, `search_issues`
does not discard the issues already collected and does not fail: it returns
the two first-page issues as a successful result (`except ...: break`). -/
theorem page_failure_partial_kept :
    (searchIssues c4Server 10).map List.length = .ok 2 := rfl

/-- C4 (amended): a failed page request ends the batch search quietly — the
failing page contributes no issues and no error, so the previously collected
pages are returned as the (partial) successful result; on the concrete
two-page scenario the search returns the 2 first-page issues with no error
after a trace of two page requests. -/
theorem page_failure_amended :
    (∀ (server : Server) (maxR fuel fetched : Nat) (token : Option Nat),
      fetched < maxR → server token (min 1000 (maxR - fetched)) = .error () →
      searchLoopF server maxR (fuel + 1) fetched token =
        (.ok [], [(fetched, min 1000 (maxR - fetched))])) ∧
    (searchIssues c4Server 10).map List.length = .ok 2 ∧
    searchTrace c4Server 10 = [(0, 10), (2, 8)] := by
  refine ⟨?_, rfl, rfl⟩
  intro server maxR fuel fetched token hlt hsrv
  rw [searchLoopF, if_pos hlt]
  simp only [hsrv]

theorem page_failure_amended_witness :
    searchLoopF (fun _ _ => .error ()) 5 (4 + 1) 0 none = (.ok [], [(0, 5)]) :=
  page_failure_amended.1 (fun _ _ => .error ()) 5 4 0 none (by decide) rfl

/-! ### Structural lemmas about the two pipelines -/
theorem except_bind_ok_iff {ε α β : Type} {x : Except ε α} {f : α → Except ε β} {b : β} :
    (x >>= f) = .ok b ↔ ∃ a, x = .ok a ∧ f a = .ok b := by
  cases x with
  | ok a => simp [except_bind_ok]
  | error e => simp [except_bind_err]

theorem runFilterOne_shape (env : BatchEnv) (ht : Json → String) (fid : String)
    (maxR : Nat) (r : BatchResult) (h : runFilterOne env ht fid maxR = .ok (some r)) :
    r.total_returned = r.issues.length := by
  rw [runFilterOne] at h
  cases hg : env.getFilter fid with
  | none => rw [hg] at h; simp at h
  | some fobj =>
    simp only [hg] at h
    by_cases ht1 : pyTruthy fobj
    · rw [if_pos ht1] at h
      simp only [except_bind_ok_iff] at h
      obtain ⟨name, hname, h⟩ := h
      obtain ⟨jql, hjql, h⟩ := h
      by_cases ht2 : pyTruthy jql
      · rw [if_pos ht2] at h
        simp only [except_bind_ok_iff] at h
        obtain ⟨issues, hsi, h⟩ := h
        obtain ⟨mro, hmr, h⟩ := h
        cases mro with
        | none =>
          simp only [except_pure_eq, except_bind_ok, Except.ok.injEq, Option.some.injEq] at h
          rw [← h]
        | some mr =>
          simp only [except_bind_ok_iff] at h
          obtain ⟨m, hm, h⟩ := h
          simp only [except_pure_eq, except_bind_ok, Except.ok.injEq, Option.some.injEq] at h
          obtain ⟨a, _, h⟩ := h
          rw [← h]
      · rw [if_neg ht2] at h
        simp [except_pure_eq] at h
    · rw [if_neg ht1] at h
      simp [except_pure_eq] at h

theorem runFilters_mem (env : BatchEnv) (ht : Json → String) :
    ∀ (fids : List String) (maxR : Nat) (rs : List BatchResult),
      runFilters env ht fids maxR = .ok rs →
      ∀ r ∈ rs, ∃ fid, runFilterOne env ht fid maxR = .ok (some r) := by
  intro fids
  induction fids with
  | nil =>
    intro maxR rs h r hr
    rw [runFilters] at h
    simp only [Except.ok.injEq] at h
    rw [← h] at hr
    simp at hr
  | cons fid rest ih =>
    intro maxR rs h r hr
    rw [runFilters] at h
    simp only [except_bind_ok_iff] at h
    obtain ⟨r1, h1, h⟩ := h
    obtain ⟨tail, htail, h⟩ := h
    simp only [except_pure_eq, Except.ok.injEq] at h
    rw [← h] at hr
    cases r1 with
    | some rec =>
      simp only [List.mem_cons] at hr
      rcases hr with rfl | hr
      · exact ⟨fid, h1⟩
      · exact ih maxR tail htail r hr
    | none => exact ih maxR tail htail r hr

theorem fetchFilter_shape (env : HAEnv) (ht : Json → String) (fid fname : String)
    (maxR : Nat) (now : String) (r : HAResult)
    (h : fetchFilter env ht fid fname maxR now = .ok r) :
    r.total_count = r.issues.length ∧
    (r.error ≠ none → r.issues = [] ∧ r.total_count = 0 ∧ r.most_recent_ticket = none) := by
  rw [fetchFilter] at h
  cases hb : fetchFilterBody env ht fid maxR with
  | ok v =>
    obtain ⟨jql, simplified, mrt⟩ := v
    simp only [hb, Except.ok.injEq] at h
    rw [← h]
    exact ⟨rfl, fun hne => absurd rfl hne⟩
  | error pe =>
    cases pe with
    | req f =>
      simp only [hb, Except.ok.injEq] at h
      rw [← h]
      exact ⟨rfl, fun _ => ⟨rfl, rfl, rfl⟩⟩
    | other e =>
      simp only [hb] at h
      simp at h

theorem dictInsert_mem {α : Type} (k : String) (v : α) :
    ∀ (l : List (String × α)) (p : String × α), p ∈ dictInsert k v l → p = (k, v) ∨ p ∈ l := by
  intro l
  induction l with
  | nil =>
    intro p hp
    rw [dictInsert] at hp
    simp only [List.mem_singleton] at hp
    exact Or.inl hp
  | cons kv2 rest ih =>
    obtain ⟨k2, v2⟩ := kv2
    intro p hp
    rw [dictInsert] at hp
    by_cases hk : k2 = k
    · rw [if_pos hk] at hp
      simp only [List.mem_cons] at hp
      rcases hp with rfl | hp
      · exact Or.inl rfl
      · exact Or.inr (List.mem_cons_of_mem _ hp)
    · rw [if_neg hk] at hp
      simp only [List.mem_cons] at hp
      rcases hp with rfl | hp
      · exact Or.inr (List.mem_cons_self _ _)
      · rcases ih p hp with h1 | h1
        · exact Or.inl h1
        · exact Or.inr (List.mem_cons_of_mem _ h1)

theorem dictInsert_fresh {α : Type} (k : String) (v : α) :
    ∀ l : List (String × α), k ∉ l.map Prod.fst → dictInsert k v l = l ++ [(k, v)] := by
  intro l
  induction l with
  | nil => intro _; rfl
  | cons kv2 rest ih =>
    obtain ⟨k2, v2⟩ := kv2
    intro hk
    simp only [List.map_cons, List.mem_cons] at hk
    push_neg at hk
    rw [dictInsert, if_neg (fun he => hk.1 he.symm), ih hk.2, List.cons_append]

theorem fetchJiraDataGo_mem (env : HAEnv) (ht : Json → String) (maxR : Nat) (now : String) :
    ∀ (filters : List (String × String)) (acc res : List (String × HAResult)),
      fetchJiraDataGo env ht maxR now filters acc = .ok res →
      ∀ p ∈ res, p ∈ acc ∨ ∃ f ∈ filters, fetchFilter env ht f.1 f.2 maxR now = .ok p.2 := by
  intro filters
  induction filters with
  | nil =>
    intro acc res h p hp
    rw [fetchJiraDataGo] at h
    simp only [Except.ok.injEq] at h
    rw [← h] at hp
    exact Or.inl hp
  | cons f rest ih =>
    obtain ⟨fid, fname⟩ := f
    intro acc res h p hp
    rw [fetchJiraDataGo] at h
    simp only [except_bind_ok_iff] at h
    obtain ⟨r, hr, h⟩ := h
    rcases ih _ _ h p hp with hin | ⟨g, hg, hfg⟩
    · rcases dictInsert_mem fid r acc p hin with rfl | hin2
      · exact Or.inr ⟨(fid, fname), List.mem_cons_self _ _, hr⟩
      · exact Or.inl hin2
    · exact Or.inr ⟨g, List.mem_cons_of_mem _ hg, hfg⟩

theorem fetchJiraDataGo_keys (env : HAEnv) (ht : Json → String) (maxR : Nat) (now : String) :
    ∀ (filters : List (String × String)) (acc res : List (String × HAResult)),
      (filters.map Prod.fst).Nodup →
      (∀ f ∈ filters, f.1 ∉ acc.map Prod.fst) →
      fetchJiraDataGo env ht maxR now filters acc = .ok res →
      res.map Prod.fst = acc.map Prod.fst ++ filters.map Prod.fst := by
  intro filters
  induction filters with
  | nil =>
    intro acc res _ _ h
    rw [fetchJiraDataGo] at h
    simp only [Except.ok.injEq] at h
    rw [← h]
    simp
  | cons f rest ih =>
    obtain ⟨fid, fname⟩ := f
    intro acc res hnodup hacc h
    rw [fetchJiraDataGo] at h
    simp only [except_bind_ok_iff] at h
    obtain ⟨r, hr, h⟩ := h
    have hfresh : fid ∉ acc.map Prod.fst := hacc (fid, fname) (List.mem_cons_self _ _)
    rw [dictInsert_fresh fid r acc hfresh] at h
    simp only [List.map_cons, List.nodup_cons] at hnodup
    have hacc2 : ∀ g ∈ rest, g.1 ∉ (acc ++ [(fid, r)]).map Prod.fst := by
      intro g hg
      rw [List.map_append]
      simp only [List.mem_append, List.map_cons, List.map_nil, List.mem_singleton]
      rintro (hin | hin)
      · exact hacc g (List.mem_cons_of_mem _ hg) hin
      · exact hnodup.1 (hin ▸ List.mem_map_of_mem Prod.fst hg)
    have hkeys := ih _ _ hnodup.2 hacc2 h
    rw [hkeys, List.map_append]
    simp

/-! ### Claim C1 -/
/-- C1 (counterexample): in batch mode a filter whose resolution fails is
skipped entirely: for the 3 requested filters "1", "2", "3" with filter "2"
unresolvable, `run_filters` returns only 2 FilterResults (for "1" and "3") —
not 3, and no error-carrying record for filter "2" exists. -/
theorem batch_skips_failed_filter :
    (runFilters c1Env (fun _ => "now") ["1", "2", "3"] 5).map
      (fun rs => rs.map (fun r => r.filter_id)) = .ok ["1", "3"] ∧
    (runFilters c1Env (fun _ => "now") ["1", "2", "3"] 5).map List.length = .ok 2 :=
  ⟨rfl, rfl⟩

/-- C1 (amended): in host-integration mode one refresh cycle produces exactly
one FilterResult per requested (distinctly-identified) filter — the result
keys equal the requested ids in order — and every record whose `error` is set
has zeroed data fields; concretely, for 3 filters where filter "2"'s
resolution fails, the cycle returns exactly 3 records, filters "1" and "3"
fully populated with `error == null` and filter "2" with `error != null`,
`total_count == 0`, `issues == []`. In batch mode a filter whose resolution
fails is instead omitted from the results (see the counterexample). -/
theorem refresh_partial_failure :
    (∀ (env : HAEnv) (ht : Json → String) (filters : List (String × String))
       (maxR : Nat) (now : String) (res : List (String × HAResult)),
      (filters.map Prod.fst).Nodup →
      fetchJiraData env ht filters maxR now = .ok res →
      res.map Prod.fst = filters.map Prod.fst ∧
      ∀ p ∈ res, p.2.error ≠ none →
        p.2.issues = [] ∧ p.2.total_count = 0 ∧ p.2.most_recent_ticket = none) ∧
    (fetchJiraData c1HAEnv (fun _ => "now") [("1", "A"), ("2", "B"), ("3", "C")] 50 "T").map
      (fun res => res.map (fun p => (p.1, p.2.error.isSome, p.2.total_count,
        p.2.issues.length, p.2.most_recent_ticket.isSome))) =
      .ok [("1", false, 1, 1, true), ("2", true, 0, 0, false), ("3", false, 1, 1, true)] := by
  refine ⟨?_, rfl⟩
  intro env ht filters maxR now res hnd hok
  constructor
  · have hkeys := fetchJiraDataGo_keys env ht maxR now filters [] res hnd (by simp) hok
    simpa using hkeys
  · intro p hp hne
    rcases fetchJiraDataGo_mem env ht maxR now filters [] res hok p hp with hin | ⟨g, _, hfg⟩
    · simp at hin
    · exact (fetchFilter_shape env ht g.1 g.2 maxR now p.2 hfg).2 hne

theorem refresh_partial_failure_witness :
    ∃ res, fetchJiraData c1HAEnv (fun _ => "now") [("1", "A"), ("2", "B"), ("3", "C")] 50 "T" =
      .ok res ∧ res.map Prod.fst = ["1", "2", "3"] := by
  obtain ⟨res, hres⟩ : ∃ res, fetchJiraData c1HAEnv (fun _ => "now")
      [("1", "A"), ("2", "B"), ("3", "C")] 50 "T" = .ok res := ⟨_, rfl⟩
  exact ⟨res, hres, (refresh_partial_failure.1 _ _ _ _ _ res (by decide) hres).1⟩

/-! ### Claim C3 -/
/-- C3 (counterexample): in batch mode a filter that resolves to an empty
query string yields NO FilterResult at all — `run_filters` skips it with
`continue` — rather than the claimed result with `total_count == 0` and
`error == null`. -/
theorem empty_query_no_record :
    runFilters c3Env (fun _ => "now") ["7"] 5 = .ok [] := rfl

/-- C3 (amended): in batch mode an empty (falsy) resolved query
short-circuits: no search request is issued — the outcome is the same for
every search backend — and no FilterResult is produced for that filter; in
host-integration mode the search IS issued even with an empty query string:
on a concrete environment whose search returns one issue, the cycle's record
for the filter has `error == null` and `total_count == 1` (and carries the
empty JQL), which can only come from an executed search. -/
theorem empty_query_guard :
    (∀ (getF : String → Option Json) (s1 s2 : Json → Server) (ht : Json → String)
       (fid : String) (maxR : Nat) (kvs : List (String × Json)),
      getF fid = some (.obj kvs) →
      pyTruthy ((kvs.lookup "jql").getD .null) = false →
      runFilters ⟨getF, s1⟩ ht [fid] maxR = .ok [] ∧
      runFilters ⟨getF, s1⟩ ht [fid] maxR = runFilters ⟨getF, s2⟩ ht [fid] maxR) ∧
    (fetchJiraData c3HAEnv (fun _ => "now") [("9", "X")] 50 "T").map
      (fun res => res.map (fun p => (p.1, p.2.error.isSome, p.2.total_count,
        jstr p.2.jql))) = .ok [("9", false, 1, "")] := by
  refine ⟨?_, rfl⟩
  intro getF s1 s2 ht fid maxR kvs hg hjf
  have hone : ∀ s : Json → Server, runFilterOne ⟨getF, s⟩ ht fid maxR = .ok none := by
    intro s
    rw [runFilterOne]
    simp only [hg]
    by_cases hto : pyTruthy (.obj kvs)
    · rw [if_pos hto]
      simp [dictGet_obj, except_bind_ok, hjf, except_pure_eq]
    · rw [if_neg hto]
      rfl
  have hruns : ∀ s : Json → Server, runFilters ⟨getF, s⟩ ht [fid] maxR = .ok [] := by
    intro s
    rw [runFilters, hone s, except_bind_ok, runFilters, except_bind_ok, except_pure_eq]
  exact ⟨hruns s1, (hruns s1).trans (hruns s2).symm⟩

theorem empty_query_guard_witness :
    runFilters ⟨c3Env.getFilter, c3Env.search⟩ (fun _ => "now") ["7"] 5 = .ok [] ∧
    runFilters ⟨c3Env.getFilter, c3Env.search⟩ (fun _ => "now") ["7"] 5 =
      runFilters ⟨c3Env.getFilter, fun _ => oneShotServer []⟩ (fun _ => "now") ["7"] 5 :=
  empty_query_guard.1 c3Env.getFilter c3Env.search (fun _ => oneShotServer [])
    (fun _ => "now") "7" 5 [("name", .str "F"), ("jql", .str "")] rfl (by decide)

/-! ### Claim C5 -/
/-- C5 (confirmed): every FilterResult produced by a host-integration refresh
cycle with `error != null` has `issues == []`, `total_count == 0` and
`most_recent == null` — a failed filter never partially populates the data
fields of its record. (Batch FilterResults carry no error field at all, so
the invariant concerns the host-integration records.) -/
theorem failed_filter_zeroed (env : HAEnv) (ht : Json → String)
    (filters : List (String × String)) (maxR : Nat) (now : String)
    (res : List (String × HAResult))
    (hok : fetchJiraData env ht filters maxR now = .ok res) :
    ∀ p ∈ res, p.2.error ≠ none →
      p.2.issues = [] ∧ p.2.total_count = 0 ∧ p.2.most_recent_ticket = none := by
  intro p hp hne
  rcases fetchJiraDataGo_mem env ht maxR now filters [] res hok p hp with hin | ⟨g, _, hfg⟩
  · simp at hin
  · exact (fetchFilter_shape env ht g.1 g.2 maxR now p.2 hfg).2 hne

theorem failed_filter_zeroed_witness :
    ∃ res, fetchJiraData c1HAEnv (fun _ => "now") [("2", "B")] 50 "T" = .ok res ∧
      ∀ p ∈ res, p.2.error ≠ none →
        p.2.issues = [] ∧ p.2.total_count = 0 ∧ p.2.most_recent_ticket = none := by
  obtain ⟨res, hres⟩ : ∃ res, fetchJiraData c1HAEnv (fun _ => "now") [("2", "B")] 50 "T" =
      .ok res := ⟨_, rfl⟩
  exact ⟨res, hres, failed_filter_zeroed _ _ _ _ _ res hres⟩

/-! ### Claim C9 -/
/-- C9 (confirmed): the executor with endpoint variants (the host-integration
search) retries the request via the secondary POST endpoint when the primary
GET endpoint fails with an HTTP (client) error, then via the tertiary
POST /search/jql endpoint, before failing; and a successful secondary
response produces exactly the record a primary success with the same payload
produces (identical downstream normalization). -/
theorem endpoint_fallback :
    (∀ (s : Endpoint → Except Fail Json) (d : Json),
      s .getSearch = .ok d → haSearch s = .ok (d, [.getSearch])) ∧
    (∀ (s : Endpoint → Except Fail Json) (d : Json),
      s .getSearch = .error .httpError → s .postSearch = .ok d →
      haSearch s = .ok (d, [.getSearch, .postSearch])) ∧
    (∀ (s : Endpoint → Except Fail Json) (d : Json),
      s .getSearch = .error .httpError → s .postSearch = .error .httpError →
      s .postSearchJql = .ok d →
      haSearch s = .ok (d, [.getSearch, .postSearch, .postSearchJql])) ∧
    (∀ (s : Endpoint → Except Fail Json) (e : Fail),
      s .getSearch = .error .httpError → s .postSearch = .error .httpError →
      s .postSearchJql = .error e → haSearch s = .error e) ∧
    (∀ (env env2 : HAEnv) (ht : Json → String) (fid fname : String) (maxR : Nat)
       (now : String) (d : Json),
      env.resolve = env2.resolve →
      env.search fid maxR .getSearch = .ok d →
      env2.search fid maxR .getSearch = .error .httpError →
      env2.search fid maxR .postSearch = .ok d →
      fetchFilter env ht fid fname maxR now = fetchFilter env2 ht fid fname maxR now) := by
  have h1 : ∀ (s : Endpoint → Except Fail Json) (d : Json),
      s .getSearch = .ok d → haSearch s = .ok (d, [.getSearch]) := by
    intro s d h
    rw [haSearch]
    simp only [h]
  have h2 : ∀ (s : Endpoint → Except Fail Json) (d : Json),
      s .getSearch = .error .httpError → s .postSearch = .ok d →
      haSearch s = .ok (d, [.getSearch, .postSearch]) := by
    intro s d hgg hpp
    rw [haSearch]
    simp only [hgg, hpp]
  have h3 : ∀ (s : Endpoint → Except Fail Json) (d : Json),
      s .getSearch = .error .httpError → s .postSearch = .error .httpError →
      s .postSearchJql = .ok d →
      haSearch s = .ok (d, [.getSearch, .postSearch, .postSearchJql]) := by
    intro s d hgg hpp hjj
    rw [haSearch]
    simp only [hgg, hpp, hjj]
  have h4 : ∀ (s : Endpoint → Except Fail Json) (e : Fail),
      s .getSearch = .error .httpError → s .postSearch = .error .httpError →
      s .postSearchJql = .error e → haSearch s = .error e := by
    intro s e hgg hpp hjj
    rw [haSearch]
    simp only [hgg, hpp, hjj]
  refine ⟨h1, h2, h3, h4, ?_⟩
  intro env env2 ht fid fname maxR now d hres hg1 hg2 hp2
  rw [fetchFilter, fetchFilter, fetchFilterBody, fetchFilterBody, hres,
    h1 _ _ hg1, h2 _ _ hg2 hp2]
  rfl

theorem endpoint_fallback_witness :
    haSearch (fun ep => match ep with
      | .getSearch => .error .httpError
      | .postSearch => .ok (.obj [])
      | .postSearchJql => .error .reqError) =
    .ok (.obj [], [.getSearch, .postSearch]) :=
  endpoint_fallback.2.1 _ (.obj []) rfl rfl

/-! ### Claim C10 -/
/-- C10 (confirmed): in every result record the engine produces, the count
field — `total_returned` in batch mode, `total_count` in host-integration
mode — equals the length of the record's `issues` list (it is the number of
fetched, capped issues, not a server-side total), and is 0 exactly when
`issues` is empty, including error records. -/
theorem count_equals_issue_length :
    (∀ (env : BatchEnv) (ht : Json → String) (fids : List String) (maxR : Nat)
       (rs : List BatchResult), runFilters env ht fids maxR = .ok rs →
      ∀ r ∈ rs, r.total_returned = r.issues.length ∧
        (r.total_returned = 0 ↔ r.issues = [])) ∧
    (∀ (env : HAEnv) (ht : Json → String) (filters : List (String × String))
       (maxR : Nat) (now : String) (res : List (String × HAResult)),
      fetchJiraData env ht filters maxR now = .ok res →
      ∀ p ∈ res, p.2.total_count = p.2.issues.length ∧
        (p.2.total_count = 0 ↔ p.2.issues = [])) := by
  constructor
  · intro env ht fids maxR rs hok r hr
    obtain ⟨fid, h1⟩ := runFilters_mem env ht fids maxR rs hok r hr
    have h2 := runFilterOne_shape env ht fid maxR r h1
    refine ⟨h2, ?_⟩
    rw [h2]
    exact List.length_eq_zero
  · intro env ht filters maxR now res hok p hp
    rcases fetchJiraDataGo_mem env ht maxR now filters [] res hok p hp with hin | ⟨g, _, hfg⟩
    · simp at hin
    · have h2 := (fetchFilter_shape env ht g.1 g.2 maxR now p.2 hfg).1
      refine ⟨h2, ?_⟩
      rw [h2]
      exact List.length_eq_zero

theorem count_equals_issue_length_witness :
    ∃ rs, runFilters c1Env (fun _ => "now") ["1", "3"] 5 = .ok rs ∧
      ∀ r ∈ rs, r.total_returned = r.issues.length ∧
        (r.total_returned = 0 ↔ r.issues = []) := by
  obtain ⟨rs, hrs⟩ : ∃ rs, runFilters c1Env (fun _ => "now") ["1", "3"] 5 = .ok rs := ⟨_, rfl⟩
  exact ⟨rs, hrs, count_equals_issue_length.1 _ _ _ _ rs hrs⟩

end JiraSpec
